import Mathlib

/-!
# Verification of the elerp configuration-object compiler

Shallow embedding of the schema-processing engine in
`src/lib/libelp-proc-internal/src/configure/` (the current snapshot; the
`configuration/` directory is a superseded prototype):

* `process_default_value.rs` — literal-to-type coercion (`process_default_value`
  and its `handle_*_literal` helpers);
* `toml_utils.rs` — the generated `to_toml` emitter and `from_toml` parser
  (`generate_to_toml_impl` / `generate_from_toml_impl`), embedded here at the
  level of the *generated code's* run-time semantics;
* `mod.rs` — the derive handler: per-field default processing, the
  `__ELP_CHILD_DEPTH` nesting-depth constant, the `__ELP_ASSERT_MSG`
  compile-time assertion, and the generated `Default` impl delegating to
  `new()`;
* `error.rs` — the `ConfigError` taxonomy (spans dropped: they carry no value).

The external TOML wire codec (the `toml` crate) is an out-of-scope collaborator
used only through its interface ("parse text to a key/value tree", "print a
tree to text"); it is embedded at tree level: a document is a list of `Line`s,
of which assignment lines build the top-level table and comment/blank lines are
ignored, and a single-binding map prints to a single assignment line.  Float
payloads are modelled as exact rationals (the generated code only moves them
around and compares them; NaN is outside the model).  Integer widths use a
64-bit target (`isize`/`usize` are 64 bits wide), matching the development
platform of the repository.
-/

namespace Elerp

/-- The twelve Rust integer type names the macro dispatches on. -/
inductive IntTy where
  | i8 | i16 | i32 | i64 | i128 | isize
  | u8 | u16 | u32 | u64 | u128 | usize
deriving DecidableEq, Repr

/-- The two Rust float type names. -/
inductive FloatTy where
  | f32 | f64
deriving DecidableEq, Repr

/-- A field's declared type as the macro sees it (the last path segment of a
`syn::Type::Path`).  A `nested` type carries the struct's name and the value of
that struct's own generated `__ELP_CHILD_DEPTH` constant, exactly the two
pieces of information `mod.rs` reads about a non-primitive field type. -/
inductive Ty where
  | string
  | int (w : IntTy)
  | float (w : FloatTy)
  | bool
  | nested (name : String) (childDepth : Nat)
deriving DecidableEq, Repr

def IntTy.name : IntTy → String
  | .i8 => "i8" | .i16 => "i16" | .i32 => "i32" | .i64 => "i64"
  | .i128 => "i128" | .isize => "isize"
  | .u8 => "u8" | .u16 => "u16" | .u32 => "u32" | .u64 => "u64"
  | .u128 => "u128" | .usize => "usize"

def FloatTy.name : FloatTy → String
  | .f32 => "f32" | .f64 => "f64"

/-- `get_type_name` / `get_type_last_ident`: the textual type name the macro's
string matches run on. -/
def Ty.name : Ty → String
  | .string => "String"
  | .int w => w.name
  | .float w => w.name
  | .bool => "bool"
  | .nested n _ => n

def IntTy.signed : IntTy → Bool
  | .i8 | .i16 | .i32 | .i64 | .i128 | .isize => true
  | _ => false

/-- Bit width on a 64-bit target (`isize`/`usize` are pointer-sized). -/
def IntTy.bits : IntTy → Nat
  | .i8 | .u8 => 8
  | .i16 | .u16 => 16
  | .i32 | .u32 => 32
  | .i64 | .u64 | .isize | .usize => 64
  | .i128 | .u128 => 128

def IntTy.minVal (w : IntTy) : Int :=
  if w.signed then -(2 ^ (w.bits - 1)) else 0

def IntTy.maxVal (w : IntTy) : Int :=
  if w.signed then 2 ^ (w.bits - 1) - 1 else 2 ^ w.bits - 1

def IntTy.ofName? (s : String) : Option IntTy :=
  match s with
  | "i8" => some .i8 | "i16" => some .i16 | "i32" => some .i32
  | "i64" => some .i64 | "i128" => some .i128 | "isize" => some .isize
  | "u8" => some .u8 | "u16" => some .u16 | "u32" => some .u32
  | "u64" => some .u64 | "u128" => some .u128 | "usize" => some .usize
  | _ => none

/-- A field's `#[config(default = ...)]` expression, as `process_default_value`
case-splits on it: the four supported `syn::Lit` kinds, any other literal kind
(e.g. a char literal), a path expression (with its last segment's identifier,
or empty), and any other expression form. -/
inductive DefaultExpr where
  | litStr (s : String)
  | litInt (digits : String)
  | litFloat (digits : String)
  | litBool (b : Bool)
  | litOther (description : String)
  | path (ident : String)
  | pathEmpty
  | otherExpr
deriving DecidableEq, Repr

/-- `ConfigError` (error.rs), with the value-carrying payloads and spans
dropped. -/
inductive ConfigError where
  | unsupportedLiteralType (literalType : String)
  | cannotParsePathExpression
  | cannotIdentifyTypePath
  | unsupportedTypeFormat
  | stringLiteralWrongType (typeName : String)
  | integerLiteralWrongType (typeName : String)
  | floatLiteralWrongType (typeName : String)
  | booleanLiteralWrongType (typeName : String)
  | parseError (value typeName parseMsg : String)
  | fieldMustHaveName
  | onlySupportsStructs
  | nestingLevelExceeded (structName : String)
deriving DecidableEq, Repr

/-- Digits of a nonempty all-decimal character list, else `none`. -/
def decDigits? (cs : List Char) : Option Nat :=
  if cs ≠ [] ∧ cs.all Char.isDigit then
    some (cs.foldl (fun a c => a * 10 + (c.toNat - 48)) 0)
  else none

/-- Rust `str::parse` for the integer type `w` (`core::num` semantics):
optional single leading sign (a minus sign is an invalid digit for unsigned
types), at least one decimal digit, range check against the width.  The error
payload mirrors the `ParseIntError` display text that `parse_and_quote` embeds
in `ConfigError::ParseError`. -/
def rustParseInt (w : IntTy) (s : String) : Except String Int :=
  match s.toList with
  | [] => .error "cannot parse integer from empty string"
  | c :: rest =>
    let signNeg : Bool := c = '-'
    let ds : List Char := if c = '-' ∨ c = '+' then rest else c :: rest
    if signNeg ∧ ¬ w.signed then .error "invalid digit found in string"
    else
      match decDigits? ds with
      | none => .error "invalid digit found in string"
      | some n =>
        let v : Int := if signNeg then -(n : Int) else (n : Int)
        if v > w.maxVal then .error "number too large to fit in target type"
        else if v < w.minVal then .error "number too small to fit in target type"
        else .ok v

/-- Decimal float text (as produced by `syn::LitFloat::base10_digits`, with an
optional sign as in the repository's own tests) read as an exact rational:
optional sign, integer digits, optional fraction, optional decimal exponent. -/
def parseRat (s : String) : Option Rat :=
  let cs := s.toList
  let signNeg : Bool := cs.head? = some '-'
  let cs := if cs.head? = some '-' ∨ cs.head? = some '+' then cs.tail else cs
  let ip := cs.takeWhile Char.isDigit
  let cs := cs.dropWhile Char.isDigit
  match decDigits? ip with
  | none => none
  | some ipn =>
    let (fp, cs) :=
      match cs with
      | '.' :: r => (r.takeWhile Char.isDigit, r.dropWhile Char.isDigit)
      | r => ([], r)
    let (exOk, exNeg, exDigits, cs) :=
      match cs with
      | 'e' :: '-' :: r | 'E' :: '-' :: r => (true, true, r.takeWhile Char.isDigit, r.dropWhile Char.isDigit)
      | 'e' :: '+' :: r | 'E' :: '+' :: r => (true, false, r.takeWhile Char.isDigit, r.dropWhile Char.isDigit)
      | 'e' :: r | 'E' :: r => (true, false, r.takeWhile Char.isDigit, r.dropWhile Char.isDigit)
      | r => (false, false, [], r)
    if cs ≠ [] then none
    else
      let fracVal : Rat := (fp.foldl (fun a c => a * 10 + (c.toNat - 48)) 0 : Nat) / ((10 : Rat) ^ fp.length)
      let base : Rat := (ipn : Rat) + fracVal
      let withExp : Option Rat :=
        if exOk then
          match decDigits? exDigits with
          | none => none
          | some e => some (if exNeg then base / (10 : Rat) ^ e else base * (10 : Rat) ^ e)
        else some base
      withExp.map (fun q => if signNeg then -q else q)

/-- A run-time field value of a generated configuration struct.
`nestedInst n` stands for the all-defaults instance (`Default::default()`,
which the derive makes equal to `new()`) of the nested configuration struct
named `n` — the only nested value the generated code can produce.
`constRef`/`opaqueExpr` are defaults passed through verbatim (a named constant
or an arbitrary expression), whose value the macro does not inspect. -/
inductive Val where
  | str (s : String)
  | int (n : Int)
  | float (q : Rat)
  | bool (b : Bool)
  | nestedInst (tyName : String)
  | constRef (ident : String)
  | opaqueExpr
deriving DecidableEq, Repr

/-- `Default::default()` of each supported field type: the type's zero value
(for a nested configuration struct, its all-defaults instance, since the
derive generates `Default` as `Self::new()`). -/
def zeroVal : Ty → Val
  | .string => .str ""
  | .int _ => .int 0
  | .float _ => .float 0
  | .bool => .bool false
  | .nested n _ => .nestedInst n

/-- `handle_string_literal`: a string literal coerces only to `String`/`str`. -/
def handle_string_literal (s : String) (typeName : String) : Except ConfigError Val :=
  match typeName with
  | "String" => .ok (.str s)
  | "str" => .ok (.str s)
  | _ => .error (.stringLiteralWrongType typeName)

/-- `handle_int_literal`: dispatch to `parse_and_quote::<T>` over the twelve
integer widths; any other type name is `IntegerLiteralWrongType`. -/
def handle_int_literal (digits : String) (typeName : String) : Except ConfigError Val :=
  match IntTy.ofName? typeName with
  | some w =>
    match rustParseInt w digits with
    | .ok v => .ok (.int v)
    | .error msg => .error (.parseError digits typeName msg)
  | none => .error (.integerLiteralWrongType typeName)

/-- `handle_float_literal`: `f32`/`f64` only. -/
def handle_float_literal (digits : String) (typeName : String) : Except ConfigError Val :=
  match typeName with
  | "f32" | "f64" =>
    match parseRat digits with
    | some q => .ok (.float q)
    | none => .error (.parseError digits typeName "invalid float literal")
  | _ => .error (.floatLiteralWrongType typeName)

/-- `handle_bool_literal`: `bool` only. -/
def handle_bool_literal (b : Bool) (typeName : String) : Except ConfigError Val :=
  match typeName with
  | "bool" => .ok (.bool b)
  | _ => .error (.booleanLiteralWrongType typeName)

/-- `process_default_value` (process_default_value.rs 9-51): coerce a default
expression against the field's declared type name.  A path identifier against
a textual type is reinterpreted as a string literal spelling the identifier;
against any other type it is passed through as a named constant.  Any other
expression form is passed through verbatim. -/
def process_default_value (e : DefaultExpr) (ty : Ty) : Except ConfigError Val :=
  let typeName := ty.name
  match e with
  | .litStr s => handle_string_literal s typeName
  | .litInt d => handle_int_literal d typeName
  | .litFloat d => handle_float_literal d typeName
  | .litBool b => handle_bool_literal b typeName
  | .litOther desc => .error (.unsupportedLiteralType desc)
  | .path ident =>
    match typeName with
    | "String" => .ok (.str ident)
    | "str" => .ok (.str ident)
    | _ => .ok (.constRef ident)
  | .pathEmpty => .error .cannotParsePathExpression
  | .otherExpr => .ok .opaqueExpr

/-- A schema field as the derive sees it: name, declared type, optional
default expression, optional note. -/
structure FieldSpec where
  name : String
  ty : Ty
  default? : Option DefaultExpr
  note? : Option String
deriving DecidableEq, Repr

/-- The value the generated `new()` assigns to a field (mod.rs 48-63):
the processed default when one is declared, else `Default::default()`. -/
def fieldAssignment (f : FieldSpec) : Except ConfigError Val :=
  match f.default? with
  | some e => process_default_value e f.ty
  | none => .ok (zeroVal f.ty)

/-! ## The TOML value tree and the generated `from_toml` -/

/-- A parsed TOML value (`toml::Value`), restricted to the shapes the claims
exercise; `Integer` carries an `i64`-ranged payload in the real crate, which
the narrowing conversions below rely on. -/
inductive Toml where
  | str (s : String)
  | int (n : Int)
  | float (q : Rat)
  | bool (b : Bool)
  | table (entries : List (String × Toml))

abbrev TomlTable := List (String × Toml)

def Toml.asStr : Toml → Option String
  | .str s => some s
  | _ => none

def Toml.asInteger : Toml → Option Int
  | .int n => some n
  | _ => none

def Toml.asFloat : Toml → Option Rat
  | .float q => some q
  | _ => none

def Toml.asBool : Toml → Option Bool
  | .bool b => some b
  | _ => none

/-- `i64 → T` narrowing via `TryInto`, restricted to `i64` sources: succeeds
exactly when the value lies in the target width's range. -/
def tryIntoI64 (w : IntTy) (n : Int) : Option Int :=
  if w.minVal ≤ n ∧ n ≤ w.maxVal then some n else none

/-- `FromStr` for the types the generated catch-all branch can name:
`String` is infallible, integers and floats parse their text forms, `bool`
accepts exactly "true"/"false".  The repository generates no `FromStr`
implementation for a nested configuration struct, so that parse can never
succeed (and no theorem below depends on the string case for nested types). -/
def rustFromStr (ty : Ty) (s : String) : Option Val :=
  match ty with
  | .string => some (.str s)
  | .int w => ((rustParseInt w s).toOption).map .int
  | .float _ => (parseRat s).map .float
  | .bool => if s = "true" then some (.bool true) else if s = "false" then some (.bool false) else none
  | .nested _ _ => none

/-- The catch-all field branch of the generated `from_toml`
(toml_utils.rs 124-130): read the entry as a *string*, `FromStr`-parse it,
and fall back to the type's zero value. -/
def fromStrFallback (t : TomlTable) (name : String) (ty : Ty) : Val :=
  (((List.lookup name t).bind Toml.asStr).bind (rustFromStr ty)).getD (zeroVal ty)

/-- One field of the generated `from_toml` (toml_utils.rs 78-131).  The
dispatch is on the field type's *name*, exactly as the macro matches the last
path segment: only `String`, `i32`, `i64`, `u16`, `u32`, `u64`, `f64` and
`bool` get a typed read; every other name — including the remaining integer
widths `i8`, `i16`, `i128`, `isize`, `u8`, `u128`, `usize`, the float width
`f32`, and nested struct types — falls into the string-parse catch-all. -/
def fromTomlField (t : TomlTable) (name : String) (ty : Ty) : Val :=
  match ty.name with
  | "String" => .str (((List.lookup name t).bind Toml.asStr).getD "")
  | "i32" => .int ((((List.lookup name t).bind Toml.asInteger).bind (tryIntoI64 .i32)).getD 0)
  | "i64" => .int (((List.lookup name t).bind Toml.asInteger).getD 0)
  | "u16" => .int ((((List.lookup name t).bind Toml.asInteger).bind (tryIntoI64 .u16)).getD 0)
  | "u32" => .int ((((List.lookup name t).bind Toml.asInteger).bind (tryIntoI64 .u32)).getD 0)
  | "u64" => .int ((((List.lookup name t).bind Toml.asInteger).bind (tryIntoI64 .u64)).getD 0)
  | "f64" => .float (((List.lookup name t).bind Toml.asFloat).getD 0)
  | "bool" => .bool (((List.lookup name t).bind Toml.asBool).getD false)
  | _ => fromStrFallback t name ty

/-- The generated `from_toml` (toml_utils.rs 139-147): a failed top-level
document parse is returned to the caller; otherwise every field is extracted
infallibly, falling back per field. -/
def from_toml (fields : List (String × Ty)) (parsed : Except String TomlTable) :
    Except String (List (String × Val)) :=
  match parsed with
  | .error e => .error e
  | .ok t => .ok (fields.map fun f => (f.1, fromTomlField t f.1 f.2))

/-! ## The generated `to_toml` -/

/-- `field_value_to_toml_string` (toml_utils.rs 6-52): the textual default
rendered into each field's header comment. -/
def field_value_to_toml_string (default? : Option DefaultExpr) (ty : Ty) :
    Except ConfigError String :=
  let typeName := ty.name
  match default? with
  | some (.litStr s) => .ok ("\"" ++ s ++ "\"")
  | some (.litInt d) => .ok d
  | some (.litFloat d) => .ok d
  | some (.litBool b) => .ok (if b then "true" else "false")
  | some (.litOther desc) => .error (.unsupportedLiteralType desc)
  | some (.path ident) =>
    .ok (if typeName = "String" ∨ typeName = "str" then "\"" ++ ident ++ "\"" else ident)
  | some .pathEmpty => .ok "default_value"
  | some .otherExpr => .ok "default_value"
  | none =>
    .ok (match typeName with
      | "String" => "\"\""
      | "str" => "\"\""
      | "i8" | "i16" | "i32" | "i64" | "i128" | "isize"
      | "u8" | "u16" | "u32" | "u64" | "u128" | "usize" => "0"
      | "f32" | "f64" => "0.0"
      | "bool" => "false"
      | _ => "null")

/-- A field compiled for emission: what one iteration of
`generate_to_toml_impl`'s loop (toml_utils.rs 158-177) bakes into the
generated `to_toml` — the note text, the header's default text, and the
canonical comparison default (`#default_compare_tokens`). -/
structure CField where
  name : String
  ty : Ty
  note : String
  defaultText : String
  dflt : Val
deriving DecidableEq, Repr

def compileField (f : FieldSpec) : Except ConfigError CField := do
  let dv ← field_value_to_toml_string f.default? f.ty
  let dc ← fieldAssignment f
  .ok { name := f.name, ty := f.ty, note := (f.note?).getD "", defaultText := dv, dflt := dc }

/-- One line of the emitted wire text.  `header` is the per-field comment
line, `commented` a commented-out binding (payload `none` when the rendered
text is not a primitive binding — a failed serialization or a table
rendering), `assign` a live binding, `sectionHeader` a `[name]` table header
(a line form of the wire format that the reader may produce or consume). -/
inductive Line where
  | blank
  | header (note tyName defaultText : String)
  | commented (key : String) (v : Option Toml)
  | assign (key : String) (v : Toml)
  | sectionHeader (name : String)

/-- `toml::to_string` on the single-binding map the emitter builds: succeeds
for strings, booleans and floats, and for integers within the `i64` range of
`toml::Value::Integer`; a wider integer fails to serialize, which
`unwrap_or_default` turns into an empty line. -/
def serPrim : Val → Option Toml
  | .str s => some (.str s)
  | .int n => if -(2 ^ 63) ≤ n ∧ n < 2 ^ 63 then some (.int n) else none
  | .float q => some (.float q)
  | .bool b => some (.bool b)
  | _ => none

/-- The value line of a primitive field block (the shared shape of the
`String`/integer/float/`bool` arms, toml_utils.rs 180-266): commented-out
default line when the current value equals the canonical default, otherwise
the live binding (an empty line if serialization fails). -/
def primValueLine (name : String) (dflt v : Val) : Line :=
  if v = dflt then .commented name (serPrim dflt)
  else
    match serPrim v with
    | some tv => .assign name tv
    | none => .blank

/-- The type names with a dedicated arm in `generate_to_toml_impl`. -/
def emitterPrimNames : List String :=
  ["String", "i32", "i64", "u16", "u32", "u64", "usize", "isize", "i8", "i16",
   "u8", "i128", "u128", "f64", "f32", "bool"]

/-- The three lines one field contributes to `to_toml` (toml_utils.rs
180-284): a header comment, the value line, and a blank separator.  For every
type outside the primitive arms — nested structs included — the catch-all arm
(toml_utils.rs 268-284) renders the *default* as a comment unconditionally:
the current value is never consulted and no live line is ever emitted. -/
def emitField (f : CField) (v : Val) : List Line :=
  if f.ty.name ∈ emitterPrimNames then
    [.header f.note f.ty.name f.defaultText, primValueLine f.name f.dflt v, .blank]
  else
    [.header f.note f.ty.name f.defaultText, .commented f.name none, .blank]

/-- The generated `to_toml` (toml_utils.rs 289-297): the concatenation of the
per-field blocks, in field order (the struct's fields are walked positionally,
one `lines.extend` per field). -/
def to_toml : List CField → List Val → List Line
  | f :: fs, v :: vs => emitField f v ++ to_toml fs vs
  | _, _ => []

/-! ## The wire codec interface -/

/-- The top-level key/value table an emitted document denotes: assignment
lines in order; comment, blank and header lines carry no bindings. -/
def docTable (ls : List Line) : TomlTable :=
  ls.filterMap fun l =>
    match l with
    | .assign k v => some (k, v)
    | _ => none

/-- The external TOML parser applied to emitter output (the opaque wire-codec
collaborator, spec interface level): comments and blanks are ignored, the
assignment lines build the top-level table, and a duplicate key makes the
document unparseable. -/
def parseEmitted (ls : List Line) : Except String TomlTable :=
  let t := docTable ls
  if (t.map Prod.fst).Nodup then .ok t else .error "duplicate key"

/-! ## Depth analysis and the derive handler -/

/-- The seventeen type names `mod.rs` 76-82 treats as primitive for depth. -/
def primTyNames : List String :=
  ["String", "str", "i8", "i16", "i32", "i64", "i128", "isize",
   "u8", "u16", "u32", "u64", "u128", "usize", "f32", "f64", "bool"]

def Ty.nestedDepth : Ty → Nat
  | .nested _ d => d
  | _ => 0

/-- The depth expression generated for one field (mod.rs 74-88): 0 for a
primitive type name, otherwise one more than the field type's own
`__ELP_CHILD_DEPTH` constant. -/
def fieldDepthExpr (f : FieldSpec) : Nat :=
  if f.ty.name ∈ primTyNames then 0 else 1 + f.ty.nestedDepth

/-- `__ELP_CHILD_DEPTH` (mod.rs 169-189): the left fold of `__elp_max` over
the per-field depth expressions, seeded with 0. -/
def childDepth (fields : List FieldSpec) : Nat :=
  fields.foldl (fun acc f => max acc (fieldDepthExpr f)) 0

/-- The message text of the `__ELP_ASSERT_MSG` compile-time assertion
(mod.rs 191-200): it names the struct and the fixed two-level limit. -/
def assertMessageFor (name : String) : String :=
  "Configuration struct '" ++ name ++
    "' nesting level exceeds allowed two levels (top level + one level of nested structs)"

/-- The derive input as the handler case-splits on it. -/
inductive InputData where
  | structData (fields : List FieldSpec)
  | nonStruct
deriving DecidableEq, Repr

/-- The field-assignment loop of `handler` (mod.rs 44-88): defaults are
processed in order and the first failure aborts the whole derive. -/
def buildNewInstance : List FieldSpec → Except ConfigError (List (String × Val))
  | [] => .ok []
  | f :: rest => do
    let v ← fieldAssignment f
    let tail ← buildNewInstance rest
    .ok ((f.name, v) :: tail)

/-- `generate_to_toml_impl`'s loop over the collected field configs. -/
def compileEmitter : List FieldSpec → Except ConfigError (List CField)
  | [] => .ok []
  | f :: rest => do
    let c ← compileField f
    let tail ← compileEmitter rest
    .ok (c :: tail)

/-- Everything the derive emits for one schema: the constructor body, the
parser's field list, the emitter's compiled fields, the
`__ELP_CHILD_DEPTH` constant, and the state of the generated compile-time
assertion (whether const evaluation of `__ELP_ASSERT_MSG` panics, and with
which message). -/
structure GeneratedArtifacts where
  newInstance : List (String × Val)
  parserFields : List (String × Ty)
  emitterFields : List CField
  childDepth : Nat
  assertTriggered : Bool
  assertMessage : String
deriving DecidableEq, Repr

/-- The derive handler (mod.rs 22-222): reject non-structs; process every
field's default (first failure aborts); generate `from_toml` (infallible),
`to_toml` (may reject), the depth constant and the assertion.  Note the
handler emits all artifacts whether or not the depth bound holds — the bound
is enforced by const evaluation of the generated assertion when the *user's*
crate compiles, not before generation. -/
def handler (name : String) : InputData → Except ConfigError GeneratedArtifacts
  | .nonStruct => .error .onlySupportsStructs
  | .structData fields => do
    let inst ← buildNewInstance fields
    let em ← compileEmitter fields
    let dep := childDepth fields
    .ok { newInstance := inst,
          parserFields := fields.map fun f => (f.name, f.ty),
          emitterFields := em,
          childDepth := dep,
          assertTriggered := decide (dep > 1),
          assertMessage := assertMessageFor name }

/-- The generated `impl Default` (mod.rs 205-209): `default()` is exactly
`Self::new()`. -/
def generatedDefault (a : GeneratedArtifacts) : List (String × Val) :=
  a.newInstance

/-! ## Auxiliary predicates and concrete fixtures used by the theorems -/

/-- The eight type names with a dedicated arm in `generate_from_toml_impl`. -/
def parserDirectNames : List String :=
  ["String", "i32", "i64", "u16", "u32", "u64", "f64", "bool"]

/-- A type whose name does not shadow a primitive type name: always true for
the primitives themselves, and for a nested struct it says the struct is not
called `i32`, `String`, ... (Rust path resolution would not produce such a
field type in these positions). -/
def Ty.wellNamed : Ty → Bool
  | .nested n _ => decide (n ∉ primTyNames)
  | _ => true

/-- The field types that the generated parser reads with a typed (non
string-fallback) branch matching their actual shape. -/
def directTy : Ty → Bool
  | .string | .bool | .float .f64
  | .int .i32 | .int .i64 | .int .u16 | .int .u32 | .int .u64 => true
  | _ => false

/-- Well-typedness of a run-time value at a declared field type (integer
payloads in the width's range; a nested value is the nested struct's
instance). -/
def typeOk : Ty → Val → Bool
  | .string, .str _ => true
  | .int w, .int n => decide (w.minVal ≤ n ∧ n ≤ w.maxVal)
  | .float _, .float _ => true
  | .bool, .bool _ => true
  | .nested n _, .nestedInst m => n == m
  | _, _ => false

/-- The field is emitted as a live assignment: its value differs from the
canonical default and serializes. -/
def isLive (cf : CField) (v : Val) : Bool :=
  !(v == cf.dflt) && (serPrim v).isSome

/-- The single top-level binding (if any) a field's emitted block contributes
to the document: primitive-armed fields contribute their live value when it
differs from the default and serializes; every other field block is all
comments. -/
def entryOf (cf : CField) (v : Val) : Option (String × Toml) :=
  if cf.ty.name ∈ emitterPrimNames then
    if v = cf.dflt then none
    else (serPrim v).map fun tv => (cf.name, tv)
  else none

/-- Fixture: a `u8` field with no declared default. -/
def u8Field : FieldSpec := ⟨"n", Ty.int .u8, none, none⟩

/-- `u8Field` compiled for emission. -/
def u8CF : CField :=
  { name := "n", ty := Ty.int .u8, note := "", defaultText := "0", dflt := .int 0 }

/-- Fixture: `port: u16` with default literal `6379` (the spec's Endpoint
example). -/
def portField : FieldSpec := ⟨"port", Ty.int .u16, some (.litInt "6379"), some "redis port"⟩

/-- `portField` compiled for emission. -/
def portCF : CField :=
  { name := "port", ty := Ty.int .u16, note := "redis port", defaultText := "6379",
    dflt := .int 6379 }

/-- Fixture: `host: String` with default literal `"localhost"`. -/
def hostCF : CField :=
  { name := "host", ty := Ty.string, note := "host", defaultText := "\"localhost\"",
    dflt := .str "localhost" }

/-- Fixture: a nested field holding a `Child` sub-record, compiled. -/
def childCF : CField :=
  { name := "sub", ty := Ty.nested "Child" 0, note := "", defaultText := "null",
    dflt := .nestedInst "Child" }

/-- Fixture: the three stacked schemas of the depth test
(Leaf all-primitive, Mid nesting Leaf, Top nesting Mid). -/
def leafFields : List FieldSpec := [⟨"v", Ty.int .i32, some (.litInt "1"), none⟩]

def midFields : List FieldSpec := [⟨"leaf", Ty.nested "Leaf" (childDepth leafFields), none, none⟩]

def topFields : List FieldSpec := [⟨"mid", Ty.nested "Mid" (childDepth midFields), none, none⟩]

/-! ## Helper lemmas -/

theorem foldl_max_eq_foldr (g : FieldSpec → Nat) :
    ∀ (l : List FieldSpec) (a : Nat),
      l.foldl (fun acc f => max acc (g f)) a = max a ((l.map g).foldr max 0) := by
  intro l
  induction l with
  | nil => intro a; simp
  | cons f rest ih =>
    intro a
    simp only [List.foldl_cons, List.map_cons, List.foldr_cons, ih, Nat.max_assoc]

theorem fieldDepthExpr_of_prim {f : FieldSpec} (h : f.ty.name ∈ primTyNames) :
    fieldDepthExpr f = 0 := by
  unfold fieldDepthExpr; rw [if_pos h]

theorem fieldDepthExpr_of_nested {f : FieldSpec} (h : f.ty.name ∉ primTyNames) :
    fieldDepthExpr f = 1 + f.ty.nestedDepth := by
  unfold fieldDepthExpr; rw [if_neg h]

theorem depth_foldr_all_prim :
    ∀ (l : List FieldSpec), (∀ f ∈ l, f.ty.name ∈ primTyNames) →
      (l.map fieldDepthExpr).foldr max 0 = 0 := by
  intro l hl
  induction l with
  | nil => rfl
  | cons f rest ih =>
    simp only [List.map_cons, List.foldr_cons]
    rw [fieldDepthExpr_of_prim (hl f (List.mem_cons_self f rest)),
      ih fun x hx => hl x (List.mem_cons_of_mem f hx)]
    simp

theorem depth_foldr_le_one :
    ∀ (l : List FieldSpec),
      (∀ f ∈ l, f.ty.name ∉ primTyNames → f.ty.nestedDepth = 0) →
      (l.map fieldDepthExpr).foldr max 0 ≤ 1 := by
  intro l hl
  induction l with
  | nil => simp
  | cons f rest ih =>
    simp only [List.map_cons, List.foldr_cons, Nat.max_le]
    refine ⟨?_, ih fun x hx => hl x (List.mem_cons_of_mem f hx)⟩
    by_cases hp : f.ty.name ∈ primTyNames
    · rw [fieldDepthExpr_of_prim hp]; omega
    · rw [fieldDepthExpr_of_nested hp, hl f (List.mem_cons_self f rest) hp]

theorem depth_foldr_one :
    ∀ (l : List FieldSpec),
      (∀ f ∈ l, f.ty.name ∉ primTyNames → f.ty.nestedDepth = 0) →
      (∃ f ∈ l, f.ty.name ∉ primTyNames) →
      (l.map fieldDepthExpr).foldr max 0 = 1 := by
  intro l hall hex
  induction l with
  | nil => rcases hex with ⟨f, hf, _⟩; cases hf
  | cons f rest ih =>
    simp only [List.map_cons, List.foldr_cons]
    by_cases hp : f.ty.name ∈ primTyNames
    · rcases hex with ⟨g, hg, hgnp⟩
      rcases List.mem_cons.mp hg with rfl | hgr
      · exact absurd hp hgnp
      · rw [fieldDepthExpr_of_prim hp,
          ih (fun x hx hxn => hall x (List.mem_cons_of_mem f hx) hxn) ⟨g, hgr, hgnp⟩]
        simp
    · rw [fieldDepthExpr_of_nested hp, hall f (List.mem_cons_self f rest) hp]
      exact Nat.max_eq_left (depth_foldr_le_one rest
        fun x hx => hall x (List.mem_cons_of_mem f hx))

/-! ## C9 — literal coercion of a string default -/

/-- C9: coercing the default literal "localhost" against a String-typed field
succeeds and yields the string "localhost", while the same literal against a
u16 field fails with StringLiteralWrongType naming the type u16. -/
theorem c9_string_literal_coercion :
    process_default_value (.litStr "localhost") Ty.string = .ok (.str "localhost") ∧
    process_default_value (.litStr "localhost") (Ty.int .u16) =
      .error (.stringLiteralWrongType "u16") :=
  ⟨rfl, rfl⟩

/-! ## C7 — the nesting-depth computation -/

/-- C7: the computed nesting depth is the maximum over the fields of
(0 if the field's type name is primitive, else 1 + the nested schema's own
depth constant); the empty field list yields 0; an all-primitive schema has
depth 0; a schema with at least one nested field, all of whose nested fields
have depth-0 schemas, has depth 1. -/
theorem c7_depth_formula :
    childDepth [] = 0 ∧
    (∀ fields : List FieldSpec,
      childDepth fields = (fields.map fieldDepthExpr).foldr max 0) ∧
    (∀ fields : List FieldSpec, (∀ f ∈ fields, f.ty.name ∈ primTyNames) →
      childDepth fields = 0) ∧
    (∀ fields : List FieldSpec,
      (∃ f ∈ fields, f.ty.name ∉ primTyNames) →
      (∀ f ∈ fields, f.ty.name ∉ primTyNames → f.ty.nestedDepth = 0) →
      childDepth fields = 1) := by
  have hform : ∀ fields : List FieldSpec,
      childDepth fields = (fields.map fieldDepthExpr).foldr max 0 := by
    intro fields
    rw [childDepth, foldl_max_eq_foldr, Nat.zero_max]
  refine ⟨rfl, hform, ?_, ?_⟩
  · intro fields h
    rw [hform]; exact depth_foldr_all_prim fields h
  · intro fields hex hall
    rw [hform]; exact depth_foldr_one fields hall hex

/-- Witness for C7 at a concrete schema: Mid, whose only field nests the
depth-0 Leaf schema, has depth 1. -/
theorem c7_depth_formula_witness : childDepth midFields = 1 :=
  c7_depth_formula.2.2.2 midFields
    ⟨⟨"leaf", Ty.nested "Leaf" (childDepth leafFields), none, none⟩, by decide, by decide⟩
    (by decide)

theorem fromTomlField_catchall (t : TomlTable) (name : String) (ty : Ty)
    (h : ty.name ∉ parserDirectNames) :
    fromTomlField t name ty = fromStrFallback t name ty := by
  unfold fromTomlField
  split <;> simp_all [parserDirectNames]

theorem lookup_single (name : String) (v : Toml) : List.lookup name [(name, v)] = some v := by
  simp [List.lookup]

theorem fromTomlField_direct_int (w : IntTy)
    (hw : w ∈ [IntTy.i32, IntTy.u16, IntTy.u32, IntTy.u64]) (t : TomlTable) (name : String) :
    fromTomlField t name (Ty.int w) =
      .int ((((List.lookup name t).bind Toml.asInteger).bind (tryIntoI64 w)).getD 0) := by
  fin_cases hw <;> rfl

theorem fromTomlField_i64_eq (t : TomlTable) (name : String) :
    fromTomlField t name (Ty.int .i64) =
      .int (((List.lookup name t).bind Toml.asInteger).getD 0) := rfl

theorem fromTomlField_catch_int (w : IntTy)
    (hw : w ∈ [IntTy.i8, IntTy.i16, IntTy.i128, IntTy.isize, IntTy.u8, IntTy.u128, IntTy.usize])
    (t : TomlTable) (name : String) :
    fromTomlField t name (Ty.int w) = fromStrFallback t name (Ty.int w) := by
  fin_cases hw <;> rfl

/-! ## C3 — primitive-field parsing branches -/

/-- C3 counterexample: a u8 field whose entry is the in-range integer 5 is
parsed to 0, not 5 — the generated from_toml does not read the remaining
integer widths as integers at all. -/
theorem c3_counterexample :
    fromTomlField [("x", .int 5)] "x" (Ty.int .u8) = .int 0 ∧
    Val.int 0 ≠ Val.int 5 ∧
    IntTy.minVal .u8 ≤ 5 ∧ (5 : Int) ≤ IntTy.maxVal .u8 :=
  ⟨rfl, by decide, by decide, by decide⟩

/-- C3 amended: only the widths i32, u16, u32, u64 narrow a generic integer
read (i64 reads it unconverted); f64 reads a float entry and bool a boolean
entry; the remaining widths i8, i16, i128, isize, u8, u128, usize and f32 go
through the string-parse catch-all, so even an in-range integer entry yields
the zero value for them; in every branch an absent, wrong-shaped or
out-of-range entry yields the zero value; and the whole parse never fails on
a parsed document. -/
theorem c3_amended :
    (∀ w ∈ [IntTy.i32, IntTy.u16, IntTy.u32, IntTy.u64], ∀ (name : String) (n : Int),
      w.minVal ≤ n → n ≤ w.maxVal →
      fromTomlField [(name, .int n)] name (Ty.int w) = .int n) ∧
    (∀ (name : String) (n : Int), fromTomlField [(name, .int n)] name (Ty.int .i64) = .int n) ∧
    (∀ w ∈ [IntTy.i32, IntTy.u16, IntTy.u32, IntTy.u64], ∀ (name : String) (n : Int),
      ¬ (w.minVal ≤ n ∧ n ≤ w.maxVal) →
      fromTomlField [(name, .int n)] name (Ty.int w) = .int 0) ∧
    (∀ (w : IntTy) (name : String), fromTomlField [] name (Ty.int w) = .int 0) ∧
    (∀ w ∈ [IntTy.i8, IntTy.i16, IntTy.i128, IntTy.isize, IntTy.u8, IntTy.u128, IntTy.usize],
      ∀ (name : String) (n : Int), fromTomlField [(name, .int n)] name (Ty.int w) = .int 0) ∧
    (∀ (name : String) (q : Rat), fromTomlField [(name, .float q)] name (Ty.float .f64) = .float q) ∧
    (∀ (name : String) (q : Rat), fromTomlField [(name, .float q)] name (Ty.float .f32) = .float 0) ∧
    (∀ (name : String) (b : Bool), fromTomlField [(name, .bool b)] name Ty.bool = .bool b) ∧
    (∀ w ∈ [IntTy.i32, IntTy.i64, IntTy.u16, IntTy.u32, IntTy.u64], ∀ (name s : String),
      fromTomlField [(name, .str s)] name (Ty.int w) = .int 0) ∧
    (∀ (fields : List (String × Ty)) (t : TomlTable),
      (from_toml fields (.ok t)).isOk = true) := by
  refine ⟨?_, ?_, ?_, ?_, ?_, ?_, ?_, ?_, ?_, ?_⟩
  · intro w hw name n h1 h2
    rw [fromTomlField_direct_int w hw, lookup_single]
    simp [Toml.asInteger, tryIntoI64, h1, h2]
  · intro name n
    rw [fromTomlField_i64_eq, lookup_single]
    simp [Toml.asInteger]
  · intro w hw name n h
    rw [fromTomlField_direct_int w hw, lookup_single]
    simp [Toml.asInteger, tryIntoI64, h]
  · intro w name; cases w <;> rfl
  · intro w hw name n
    rw [fromTomlField_catch_int w hw]
    unfold fromStrFallback
    rw [lookup_single]
    simp [Toml.asStr, zeroVal]
  · intro name q
    show Val.float (((List.lookup name [(name, .float q)]).bind Toml.asFloat).getD 0) = _
    rw [lookup_single]; simp [Toml.asFloat]
  · intro name q
    show fromStrFallback [(name, .float q)] name (Ty.float .f32) = _
    unfold fromStrFallback
    rw [lookup_single]; simp [Toml.asStr, zeroVal]
  · intro name b
    show Val.bool (((List.lookup name [(name, .bool b)]).bind Toml.asBool).getD false) = _
    rw [lookup_single]; simp [Toml.asBool]
  · intro w hw name s
    fin_cases hw <;>
      · first
        | (rw [fromTomlField_i64_eq, lookup_single]; simp [Toml.asInteger])
        | (rw [fromTomlField_direct_int _ (by decide), lookup_single]; simp [Toml.asInteger])
  · intro fields t; rfl

/-- Witness for C3 amended: a u16 field reads an in-range integer entry. -/
theorem c3_amended_witness :
    fromTomlField [("port", .int 6379)] "port" (Ty.int .u16) = .int 6379 :=
  c3_amended.1 .u16 (by decide) "port" 6379 (by decide) (by decide)

/-! ## C4 — nested-field parsing -/

/-- C4 counterexample: a nested field whose entry is a populated sub-tree is
parsed to the nested type's all-defaults instance — identical to the absent
case — whereas recursively invoking the nested schema's own parser on that
sub-tree (what the claim describes) reconstructs the non-default value. -/
theorem c4_counterexample :
    fromTomlField [("sub", .table [("v", .int 1)])] "sub" (Ty.nested "Child" 0) =
      .nestedInst "Child" ∧
    fromTomlField [] "sub" (Ty.nested "Child" 0) = .nestedInst "Child" ∧
    from_toml [("v", Ty.int .i32)] (.ok [("v", .int 1)]) = .ok [("v", .int 1)] ∧
    Val.int 1 ≠ Val.int 0 :=
  ⟨rfl, rfl, rfl, by decide⟩

/-- C4 amended: a nested field is parsed through the generic string branch;
since a sub-tree has no string form and no FromStr implementation exists for
generated structs, the field always becomes the nested schema's all-defaults
(Default) instance, whatever the document holds at its key. -/
theorem c4_amended (n : String) (d : Nat) (name : String) (t : TomlTable)
    (hn : n ∉ parserDirectNames) :
    fromTomlField t name (Ty.nested n d) = .nestedInst n := by
  rw [fromTomlField_catchall t name (Ty.nested n d) hn]
  unfold fromStrFallback
  cases (List.lookup name t).bind Toml.asStr <;> rfl

/-- Witness for C4 amended at a populated sub-tree. -/
theorem c4_amended_witness :
    fromTomlField [("sub", .table [("v", .int 1)])] "sub" (Ty.nested "Child" 0) =
      .nestedInst "Child" :=
  c4_amended "Child" 0 "sub" [("sub", .table [("v", .int 1)])] (by decide)

/-! ## C5 — nested-field emission -/

/-- C5 counterexample: the emitted block for a nested field is a header
comment, a commented default line and a blank line — it contains no section
header and contributes no live binding at all. -/
theorem c5_counterexample :
    compileField ⟨"sub", Ty.nested "Child" 0, none, none⟩ = .ok childCF ∧
    to_toml [childCF] [Val.nestedInst "Child"] =
      [Line.header "" "Child" "null", Line.commented "sub" none, Line.blank] ∧
    Line.sectionHeader "sub" ∉ to_toml [childCF] [Val.nestedInst "Child"] ∧
    docTable (to_toml [childCF] [Val.nestedInst "Child"]) = [] := by
  refine ⟨rfl, rfl, ?_, rfl⟩
  intro h
  rw [show to_toml [childCF] [Val.nestedInst "Child"] =
    [Line.header "" "Child" "null", Line.commented "sub" none, Line.blank] from rfl] at h
  simp at h

/-- C5 amended: for every field whose type name is outside the emitter's
primitive arms (nested schemas in particular), the emitted block is a header
comment, a commented rendering of the default, and a blank separator — no
section header, no live nested rendering. -/
theorem c5_amended (cf : CField) (v : Val) (h : cf.ty.name ∉ emitterPrimNames) :
    emitField cf v =
      [Line.header cf.note cf.ty.name cf.defaultText, Line.commented cf.name none,
        Line.blank] ∧
    docTable (emitField cf v) = [] := by
  unfold emitField
  rw [if_neg h]
  exact ⟨rfl, rfl⟩

/-- Witness for C5 amended at the concrete Child field. -/
theorem c5_amended_witness :
    emitField childCF (Val.nestedInst "Child") =
      [Line.header "" "Child" "null", Line.commented "sub" none, Line.blank] :=
  (c5_amended childCF (Val.nestedInst "Child") (by decide)).1

/-! ## C6 — hard versus soft parse failures -/

/-- C6 counterexample: a u8 field with the textual entry "7" — a type
mismatch for an integer-typed field — is not replaced by the zero value: the
catch-all branch string-parses it to 7 (the overall call still succeeds). -/
theorem c6_counterexample :
    from_toml [("x", Ty.int .u8)] (.ok [("x", .str "7")]) = .ok [("x", .int 7)] ∧
    Val.int 7 ≠ Val.int 0 :=
  ⟨rfl, by decide⟩

/-- C6 amended: from_toml fails exactly when the document itself fails to
parse; an absent entry yields the zero value for every field type, and a
mismatched entry yields the zero value for the directly-read types (bool
shown textual, as the claim's example); but for the string-parsed fallback
types a textual entry that parses as the target yields that value, not zero. -/
theorem c6_amended :
    (∀ (fields : List (String × Ty)) (e : String), from_toml fields (.error e) = .error e) ∧
    (∀ (fields : List (String × Ty)) (t : TomlTable), (from_toml fields (.ok t)).isOk = true) ∧
    (∀ (w : IntTy) (name : String), fromTomlField [] name (Ty.int w) = .int 0) ∧
    (∀ (fw : FloatTy) (name : String), fromTomlField [] name (Ty.float fw) = .float 0) ∧
    (∀ name : String, fromTomlField [] name Ty.string = .str "") ∧
    (∀ name : String, fromTomlField [] name Ty.bool = .bool false) ∧
    (∀ (n : String) (d : Nat) (name : String), n ∉ parserDirectNames →
      fromTomlField [] name (Ty.nested n d) = .nestedInst n) ∧
    (∀ name s : String, fromTomlField [(name, .str s)] name Ty.bool = .bool false) ∧
    from_toml [("flag", Ty.bool)] (.ok [("flag", .str "yes")]) = .ok [("flag", .bool false)] := by
  refine ⟨fun _ _ => rfl, fun _ _ => rfl, fun w name => by cases w <;> rfl,
    fun fw name => by cases fw <;> rfl, fun _ => rfl, fun _ => rfl, ?_, ?_, rfl⟩
  · intro n d name hn
    rw [fromTomlField_catchall [] name (Ty.nested n d) hn]
    rfl
  · intro name s
    show Val.bool (((List.lookup name [(name, .str s)]).bind Toml.asBool).getD false) = _
    rw [lookup_single]
    simp [Toml.asBool]

/-- Witness for C6 amended: the absent nested entry yields Child's
all-defaults instance. -/
theorem c6_amended_witness :
    fromTomlField [] "sub" (Ty.nested "Child" 0) = .nestedInst "Child" :=
  c6_amended.2.2.2.2.2.2.1 "Child" 0 "sub" (by decide)

/-! ## C8 — enforcement of the depth bound -/

/-- C8 counterexample: compiling the Top of the three stacked schemas emits
every artifact (constructor body, parser fields and emitter fields are all
produced), and what fails is the generated const assertion, whose message
names the schema but contains no digit at all — in particular not the
measured depth 2. -/
theorem c8_counterexample :
    childDepth topFields = 2 ∧
    (handler "Top" (.structData topFields)).isOk = true ∧
    (handler "Top" (.structData topFields)).map GeneratedArtifacts.assertTriggered =
      .ok true ∧
    (handler "Top" (.structData topFields)).map GeneratedArtifacts.assertMessage =
      .ok (assertMessageFor "Top") ∧
    (handler "Top" (.structData topFields)).map
        (fun a => (a.newInstance, a.parserFields, a.emitterFields.length)) =
      .ok ([("mid", Val.nestedInst "Mid")], [("mid", Ty.nested "Mid" 1)], 1) ∧
    ((assertMessageFor "Top").data.all fun c => !c.isDigit) = true :=
  ⟨by decide, rfl, rfl, rfl, rfl, by decide⟩

/-- C8 amended: the bound is enforced by the generated compile-time assertion
rather than before generation: for every schema the handler accepts, the
assertion fires exactly when the computed depth exceeds 1 (so depth ≤ 1 is
never rejected), its message names the schema and the fixed two-level limit
(not the measured depth), and the parser artifact is generated regardless. -/
theorem c8_amended (name : String) (fields : List FieldSpec) (a : GeneratedArtifacts)
    (h : handler name (.structData fields) = .ok a) :
    a.childDepth = childDepth fields ∧
    (a.assertTriggered = true ↔ childDepth fields > 1) ∧
    a.assertMessage = assertMessageFor name ∧
    a.parserFields = fields.map fun f => (f.name, f.ty) := by
  simp only [handler] at h
  cases hb : buildNewInstance fields with
  | error e => rw [hb] at h; exact absurd h (by simp [Bind.bind, Except.bind])
  | ok inst =>
    cases hc : compileEmitter fields with
    | error e =>
      rw [hb, hc] at h
      exact absurd h (by simp [Bind.bind, Except.bind])
    | ok em =>
      rw [hb, hc] at h
      simp only [Bind.bind, Except.bind, Except.ok.injEq] at h
      subst h
      exact ⟨rfl, by simp, rfl, rfl⟩

/-- Witness for C8 amended at the stacked Top schema. -/
theorem c8_amended_witness :
    ((⟨[("mid", Val.nestedInst "Mid")], [("mid", Ty.nested "Mid" 1)],
        [⟨"mid", Ty.nested "Mid" 1, "", "null", Val.nestedInst "Mid"⟩], 2, true,
        assertMessageFor "Top"⟩ : GeneratedArtifacts).assertTriggered = true ↔
      childDepth topFields > 1) :=
  (c8_amended "Top" topFields _ rfl).2.1

/-! ## C10 — Default delegates to new() -/

theorem buildNewInstance_mem :
    ∀ (fields : List FieldSpec) (l : List (String × Val)),
      buildNewInstance fields = .ok l →
      ∀ f ∈ fields, ∃ v, fieldAssignment f = .ok v ∧ (f.name, v) ∈ l := by
  intro fields
  induction fields with
  | nil => intro l _ f hf; cases hf
  | cons f0 rest ih =>
    intro l h f hf
    unfold buildNewInstance at h
    cases ha : fieldAssignment f0 with
    | error e => rw [ha] at h; exact absurd h (by simp [Bind.bind, Except.bind])
    | ok v0 =>
      cases hb : buildNewInstance rest with
      | error e =>
        rw [ha, hb] at h
        exact absurd h (by simp [Bind.bind, Except.bind])
      | ok tail =>
        rw [ha, hb] at h
        simp only [Bind.bind, Except.bind, Except.ok.injEq] at h
        rcases List.mem_cons.mp hf with rfl | hfr
        · exact ⟨v0, ha, by rw [← h]; exact List.mem_cons_self _ _⟩
        · obtain ⟨v, hv, hm⟩ := ih tail hb f hfr
          exact ⟨v, hv, by rw [← h]; exact List.mem_cons_of_mem _ hm⟩

/-- C10: the generated Default implementation delegates to new(), so
Default::default() is exactly the instance new() builds — and that instance
assigns every field its processed canonical default. -/
theorem c10_default_is_new (name : String) (fields : List FieldSpec)
    (a : GeneratedArtifacts) (h : handler name (.structData fields) = .ok a) :
    generatedDefault a = a.newInstance ∧
    buildNewInstance fields = .ok a.newInstance ∧
    ∀ f ∈ fields, ∃ v, fieldAssignment f = .ok v ∧ (f.name, v) ∈ a.newInstance := by
  simp only [handler] at h
  cases hb : buildNewInstance fields with
  | error e => rw [hb] at h; exact absurd h (by simp [Bind.bind, Except.bind])
  | ok inst =>
    cases hc : compileEmitter fields with
    | error e =>
      rw [hb, hc] at h
      exact absurd h (by simp [Bind.bind, Except.bind])
    | ok em =>
      rw [hb, hc] at h
      simp only [Bind.bind, Except.bind, Except.ok.injEq] at h
      subst h
      exact ⟨rfl, rfl, buildNewInstance_mem fields inst hb⟩

/-- Witness for C10 at the concrete Leaf schema. -/
theorem c10_default_is_new_witness :
    buildNewInstance leafFields = .ok [("v", Val.int 1)] :=
  (c10_default_is_new "Leaf" leafFields
    ⟨[("v", Val.int 1)], [("v", Ty.int .i32)],
      [⟨"v", Ty.int .i32, "", "1", Val.int 1⟩], 0, false,
      assertMessageFor "Leaf"⟩ rfl).2.1

theorem fromTomlField_nil_eq (name : String) (ty : Ty) (h : ty.wellNamed = true) :
    fromTomlField [] name ty = zeroVal ty := by
  cases ty with
  | string => rfl
  | int w => cases w <;> rfl
  | float w => cases w <;> rfl
  | bool => rfl
  | nested n d =>
    have hn : n ∉ primTyNames := by simpa [Ty.wellNamed] using h
    have hn2 : (Ty.nested n d).name ∉ parserDirectNames := by
      intro hmem
      apply hn
      simp only [Ty.name, parserDirectNames, List.mem_cons, List.not_mem_nil, or_false] at hmem
      simp only [primTyNames, List.mem_cons, List.not_mem_nil, or_false]
      tauto
    rw [fromTomlField_catchall [] name (Ty.nested n d) hn2]
    rfl

/-! ## C2 — commenting out default-valued fields -/

/-- C2 counterexample: the port field (u16, default 6379) at its default is
emitted commented out, but the commented form parses back as 0 (the entry is
simply absent) while the live form of the same line parses back as 6379 — the
two forms do not parse identically. -/
theorem c2_counterexample :
    compileField portField = .ok portCF ∧
    emitField portCF (.int 6379) =
      [Line.header "redis port" "u16" "6379", Line.commented "port" (some (.int 6379)),
        Line.blank] ∧
    from_toml [("port", Ty.int .u16)] (parseEmitted (emitField portCF (.int 6379))) =
      .ok [("port", .int 0)] ∧
    from_toml [("port", Ty.int .u16)] (parseEmitted [Line.assign "port" (.int 6379)]) =
      .ok [("port", .int 6379)] ∧
    Val.int 0 ≠ Val.int 6379 :=
  ⟨rfl, rfl, rfl, rfl, by decide⟩

/-- C2 amended: a primitive field whose value equals its canonical default is
emitted as the commented default line (the block contributes no binding), and
reading the block back yields the field's zero value — not the default — so
the commented and live forms parse identically only when the default is the
zero value; for the directly-read u16 width the live form reads back the
default itself. -/
theorem c2_amended (cf : CField) (v : Val)
    (hprim : cf.ty.name ∈ emitterPrimNames) (hwn : cf.ty.wellNamed = true)
    (heq : v = cf.dflt) :
    emitField cf v =
      [Line.header cf.note cf.ty.name cf.defaultText,
        Line.commented cf.name (serPrim cf.dflt), Line.blank] ∧
    docTable (emitField cf v) = [] ∧
    fromTomlField (docTable (emitField cf v)) cf.name cf.ty = zeroVal cf.ty ∧
    (cf.ty = Ty.int .u16 → ∀ n : Int, cf.dflt = .int n →
      IntTy.minVal .u16 ≤ n → n ≤ IntTy.maxVal .u16 →
      fromTomlField [(cf.name, .int n)] cf.name cf.ty = .int n) := by
  have hblock : emitField cf v =
      [Line.header cf.note cf.ty.name cf.defaultText,
        Line.commented cf.name (serPrim cf.dflt), Line.blank] := by
    unfold emitField
    rw [if_pos hprim]
    unfold primValueLine
    rw [if_pos heq]
  have hdoc : docTable (emitField cf v) = [] := by rw [hblock]; rfl
  refine ⟨hblock, hdoc, ?_, ?_⟩
  · rw [hdoc]
    exact fromTomlField_nil_eq cf.name cf.ty hwn
  · intro hty n hd h1 h2
    rw [hty, fromTomlField_direct_int .u16 (by decide), lookup_single]
    simp [Toml.asInteger, tryIntoI64, h1, h2]

/-- Witness for C2 amended at the default-valued port field. -/
theorem c2_amended_witness :
    docTable (emitField portCF (Val.int 6379)) = [] :=
  (c2_amended portCF (Val.int 6379) (by decide) (by decide) (by decide)).2.1

/-! ## Round-trip machinery for C1 -/

theorem docTable_append (l1 l2 : List Line) :
    docTable (l1 ++ l2) = docTable l1 ++ docTable l2 := by
  simp [docTable, List.filterMap_append]

theorem docTable_emitField (cf : CField) (v : Val) :
    docTable (emitField cf v) = (entryOf cf v).toList := by
  unfold emitField entryOf
  by_cases hp : cf.ty.name ∈ emitterPrimNames
  · rw [if_pos hp, if_pos hp]
    unfold primValueLine
    by_cases he : v = cf.dflt
    · rw [if_pos he, if_pos he]; rfl
    · rw [if_neg he, if_neg he]
      cases hs : serPrim v with
      | none => rfl
      | some tv => rfl
  · rw [if_neg hp, if_neg hp]; rfl

theorem docTable_to_toml :
    ∀ (fs : List CField) (vs : List Val),
      docTable (to_toml fs vs) = (fs.zip vs).filterMap fun p => entryOf p.1 p.2 := by
  intro fs
  induction fs with
  | nil => intro vs; cases vs <;> rfl
  | cons f fs ih =>
    intro vs
    cases vs with
    | nil => rfl
    | cons v vs =>
      show docTable (emitField f v ++ to_toml fs vs) = _
      rw [docTable_append, docTable_emitField, ih]
      cases he : entryOf f v with
      | none => simp [List.filterMap_cons, he]
      | some e => simp [List.filterMap_cons, he]

theorem entryOf_key (cf : CField) (v : Val) (e : String × Toml) (h : entryOf cf v = some e) :
    e.1 = cf.name := by
  unfold entryOf at h
  by_cases hp : cf.ty.name ∈ emitterPrimNames
  · rw [if_pos hp] at h
    by_cases he : v = cf.dflt
    · rw [if_pos he] at h; cases h
    · rw [if_neg he] at h
      cases hs : serPrim v with
      | none => rw [hs] at h; cases h
      | some tv =>
        rw [hs] at h
        simp only [Option.map_some'] at h
        cases h
        rfl
  · rw [if_neg hp] at h; cases h

theorem entryOf_live (cf : CField) (v : Val) (tv : Toml)
    (hmem : cf.ty.name ∈ emitterPrimNames) (hne : v ≠ cf.dflt)
    (hser : serPrim v = some tv) :
    entryOf cf v = some (cf.name, tv) := by
  unfold entryOf
  rw [if_pos hmem, if_neg hne, hser]
  rfl

theorem directTy_name_mem (ty : Ty) (h : directTy ty = true) :
    ty.name ∈ emitterPrimNames := by
  cases ty with
  | string => decide
  | int w => cases w <;> decide
  | float w => cases w <;> decide
  | bool => decide
  | nested n d => exact Bool.noConfusion h

theorem entries_keys_sublist :
    ∀ (fs : List CField) (vs : List Val),
      (((fs.zip vs).filterMap fun p => entryOf p.1 p.2).map Prod.fst).Sublist
        (fs.map CField.name) := by
  intro fs
  induction fs with
  | nil => intro vs; simp
  | cons f fs ih =>
    intro vs
    cases vs with
    | nil => simp
    | cons v vs =>
      cases he : entryOf f v with
      | none =>
        simp only [List.zip_cons_cons, List.filterMap_cons, he, List.map_cons]
        exact (ih vs).cons _
      | some e =>
        have hk := entryOf_key f v e he
        simp only [List.zip_cons_cons, List.filterMap_cons, he, List.map_cons, hk]
        exact (ih vs).cons₂ _

theorem lookup_filterMap_none :
    ∀ (l : List (CField × Val)) (k : String),
      (∀ q ∈ l, q.1.name ≠ k) →
      List.lookup k (l.filterMap fun q => entryOf q.1 q.2) = none := by
  intro l
  induction l with
  | nil => intro k _; rfl
  | cons q l ih =>
    intro k hk
    cases he : entryOf q.1 q.2 with
    | none =>
      simp only [List.filterMap_cons, he]
      exact ih k fun r hr => hk r (List.mem_cons_of_mem _ hr)
    | some e =>
      have hke : e.1 = q.1.name := entryOf_key _ _ _ he
      have hne : k ≠ e.1 := by rw [hke]; exact fun hEq => hk q (List.mem_cons_self _ _) hEq.symm
      simp only [List.filterMap_cons, he]
      cases e with
      | mk ek ev =>
        simp only at hne
        have hb : (k == ek) = false := beq_eq_false_iff_ne.mpr hne
        simp only [List.lookup, hb]
        exact ih k fun r hr => hk r (List.mem_cons_of_mem _ hr)

theorem lookup_entries :
    ∀ (fs : List CField) (vs : List Val),
      (fs.map CField.name).Nodup →
      ∀ p ∈ fs.zip vs,
        List.lookup p.1.name ((fs.zip vs).filterMap fun q => entryOf q.1 q.2) =
          (entryOf p.1 p.2).map Prod.snd := by
  intro fs
  induction fs with
  | nil => intro vs _ p hp; simp at hp
  | cons f fs ih =>
    intro vs hnd p hp
    cases vs with
    | nil => simp at hp
    | cons v vs =>
      have hnd1 : f.name ∉ fs.map CField.name := (List.nodup_cons.mp hnd).1
      have hnd2 : (fs.map CField.name).Nodup := (List.nodup_cons.mp hnd).2
      rw [List.zip_cons_cons] at hp ⊢
      rcases List.mem_cons.mp hp with rfl | hpr
      · cases he : entryOf f v with
        | some e =>
          have hk : e.1 = f.name := entryOf_key _ _ _ he
          cases e with
          | mk ek ev =>
            simp only at hk
            subst hk
            simp [List.filterMap_cons, he, List.lookup]
        | none =>
          simp only [List.filterMap_cons, he, Option.map_none']
          apply lookup_filterMap_none
          intro q hq hEq
          have hq1 : q.1 ∈ fs := (List.of_mem_zip hq).1
          exact hnd1 (hEq ▸ List.mem_map_of_mem CField.name hq1)
      · cases he : entryOf f v with
        | none =>
          simp only [List.filterMap_cons, he]
          exact ih vs hnd2 p hpr
        | some e =>
          have hk : e.1 = f.name := entryOf_key _ _ _ he
          have hp1 : p.1 ∈ fs := (List.of_mem_zip hpr).1
          have hne : p.1.name ≠ e.1 := by
            rw [hk]
            intro hEq
            exact hnd1 (hEq ▸ List.mem_map_of_mem CField.name hp1)
          cases e with
          | mk ek ev =>
            simp only at hne
            have hb : (p.1.name == ek) = false := beq_eq_false_iff_ne.mpr hne
            simp only [List.filterMap_cons, he]
            simp [List.lookup, hb]
            exact ih vs hnd2 p hpr

theorem lookup_result (T : TomlTable) :
    ∀ (fs : List CField), (fs.map CField.name).Nodup →
      ∀ cf ∈ fs,
        List.lookup cf.name
          ((fs.map fun f => (f.name, f.ty)).map fun q => (q.1, fromTomlField T q.1 q.2)) =
          some (fromTomlField T cf.name cf.ty) := by
  intro fs
  induction fs with
  | nil => intro _ cf hcf; cases hcf
  | cons f fs ih =>
    intro hnd cf hcf
    simp only [List.map_cons]
    rcases List.mem_cons.mp hcf with rfl | hcfr
    · simp [List.lookup]
    · have hne : cf.name ≠ f.name := by
        intro hEq
        exact (List.nodup_cons.mp hnd).1
          (hEq ▸ List.mem_map_of_mem CField.name hcfr)
      have hb : (cf.name == f.name) = false := beq_eq_false_iff_ne.mpr hne
      have ih2 := ih (List.nodup_cons.mp hnd).2 cf hcfr
      simp only [List.lookup, hb]
      simpa using ih2

theorem fromTomlField_string (t : TomlTable) (name : String) :
    fromTomlField t name Ty.string =
      .str (((List.lookup name t).bind Toml.asStr).getD "") := rfl

theorem fromTomlField_f64 (t : TomlTable) (name : String) :
    fromTomlField t name (Ty.float .f64) =
      .float (((List.lookup name t).bind Toml.asFloat).getD 0) := rfl

theorem fromTomlField_bool (t : TomlTable) (name : String) :
    fromTomlField t name Ty.bool =
      .bool (((List.lookup name t).bind Toml.asBool).getD false) := rfl

theorem fromTomlField_reads_back (ty : Ty) (v : Val) (t : TomlTable) (name : String)
    (hd : directTy ty = true) (hok : typeOk ty v = true) (tv : Toml)
    (hser : serPrim v = some tv) (hl : List.lookup name t = some tv) :
    fromTomlField t name ty = v := by
  cases ty with
  | string =>
    cases v <;> try exact Bool.noConfusion hok
    case str s =>
      cases hser
      rw [fromTomlField_string, hl]
      rfl
  | int w =>
    cases v <;> try exact Bool.noConfusion hok
    case int n =>
      have hrange := of_decide_eq_true hok
      have hser2 : (if -(2 ^ 63) ≤ n ∧ n < 2 ^ 63 then some (Toml.int n) else none) =
          some tv := hser
      by_cases h63 : -(2 ^ 63 : Int) ≤ n ∧ n < 2 ^ 63
      · rw [if_pos h63] at hser2
        cases hser2
        cases w <;> try exact Bool.noConfusion hd
        all_goals first
          | (rw [fromTomlField_i64_eq, hl]; rfl)
          | (rw [fromTomlField_direct_int _ (by decide), hl];
             simp [Toml.asInteger, tryIntoI64, hrange.1, hrange.2])
      · rw [if_neg h63] at hser2
        cases hser2
  | float w =>
    cases w <;> try exact Bool.noConfusion hd
    case f64 =>
      cases v <;> try exact Bool.noConfusion hok
      case float q =>
        cases hser
        rw [fromTomlField_f64, hl]
        rfl
  | bool =>
    cases v <;> try exact Bool.noConfusion hok
    case bool b =>
      cases hser
      rw [fromTomlField_bool, hl]
      rfl
  | nested n d => exact Bool.noConfusion hd

/-! ## C1 — the round trip -/

/-- C1 counterexample: a u8 field with value 5 is emitted as a live,
well-shaped binding (n = 5), yet the round trip reconstructs 0: the parser's
string-fallback branch never reads the integer entry back. -/
theorem c1_counterexample :
    compileField u8Field = .ok u8CF ∧
    to_toml [u8CF] [.int 5] =
      [Line.header "" "u8" "0", Line.assign "n" (.int 5), Line.blank] ∧
    from_toml [("n", Ty.int .u8)] (parseEmitted (to_toml [u8CF] [.int 5])) =
      .ok [("n", .int 0)] ∧
    Val.int 0 ≠ Val.int 5 :=
  ⟨rfl, rfl, rfl, by decide⟩

/-- C1 amended: over schemas all of whose field types are directly parsed
(String, i32, i64, u16, u32, u64, f64, bool) with distinct field names and
well-typed values, `from_toml (to_toml x)` succeeds, and every field whose
entry is emitted live is reconstructed with exactly its original value. -/
theorem c1_amended (fs : List CField) (vs : List Val)
    (hnodup : (fs.map CField.name).Nodup)
    (h : ∀ p ∈ fs.zip vs, directTy p.1.ty = true ∧ typeOk p.1.ty p.2 = true) :
    ∃ res,
      from_toml (fs.map fun f => (f.name, f.ty)) (parseEmitted (to_toml fs vs)) = .ok res ∧
      ∀ p ∈ fs.zip vs, isLive p.1 p.2 = true → List.lookup p.1.name res = some p.2 := by
  have hdoc : docTable (to_toml fs vs) = (fs.zip vs).filterMap fun p => entryOf p.1 p.2 :=
    docTable_to_toml fs vs
  have hkeys : ((docTable (to_toml fs vs)).map Prod.fst).Nodup := by
    rw [hdoc]
    exact hnodup.sublist (entries_keys_sublist fs vs)
  have hparse : parseEmitted (to_toml fs vs) = .ok (docTable (to_toml fs vs)) := by
    unfold parseEmitted
    rw [if_pos hkeys]
  refine ⟨_, by rw [hparse]; rfl, ?_⟩
  intro p hp hlive
  obtain ⟨cf, v⟩ := p
  obtain ⟨hd, hok⟩ := h (cf, v) hp
  have hcf : cf ∈ fs := (List.of_mem_zip hp).1
  -- the live binding this field contributed
  have hlive2 := hlive
  unfold isLive at hlive2
  rw [Bool.and_eq_true, Bool.not_eq_true', beq_eq_false_iff_ne, Option.isSome_iff_exists]
    at hlive2
  obtain ⟨hne, tv, hser⟩ := hlive2
  have hentry : entryOf cf v = some (cf.name, tv) :=
    entryOf_live cf v tv (directTy_name_mem cf.ty hd) hne hser
  have hlkT : List.lookup cf.name (docTable (to_toml fs vs)) = some tv := by
    rw [hdoc]
    have := lookup_entries fs vs hnodup (cf, v) hp
    rw [hentry] at this
    exact this
  have hreconstruct : fromTomlField (docTable (to_toml fs vs)) cf.name cf.ty = v :=
    fromTomlField_reads_back cf.ty v (docTable (to_toml fs vs)) cf.name hd hok tv hser hlkT
  have hres := lookup_result (docTable (to_toml fs vs)) fs hnodup cf hcf
  rw [hreconstruct] at hres
  exact hres

/-- Witness for C1 amended at the Endpoint schema with a live host and a
defaulted port. -/
theorem c1_amended_witness :
    from_toml [("host", Ty.string), ("port", Ty.int .u16)]
      (parseEmitted (to_toml [hostCF, portCF] [Val.str "example.com", Val.int 6379])) =
      .ok [("host", Val.str "example.com"), ("port", Val.int 0)] ∧
    List.lookup "host" [("host", Val.str "example.com"), ("port", Val.int 0)] =
      some (Val.str "example.com") := by
  obtain ⟨res, h1, h2⟩ :=
    c1_amended [hostCF, portCF] [Val.str "example.com", Val.int 6379] (by decide) (by decide)
  have hx := h1.symm.trans
    (show from_toml [("host", Ty.string), ("port", Ty.int .u16)]
        (parseEmitted (to_toml [hostCF, portCF] [Val.str "example.com", Val.int 6379])) =
        .ok [("host", Val.str "example.com"), ("port", Val.int 0)] from rfl)
  cases hx
  exact ⟨h1, h2 (hostCF, Val.str "example.com") (by decide) (by decide)⟩

end Elerp
